import Mathlib

/-
Verification of the LinkedIn analytics dashboard data pipeline (main.py).

The pipeline is embedded shallowly:

* a pandas cell value of a numeric or datetime column is `Val`: either a
  rational number or `na` (the NaN / NaT missing marker produced by
  `errors="coerce"` parsing);
* comparisons on `Val` mirror IEEE semantics of Python floats: any
  comparison involving NaN evaluates to `false` and never raises;
* a raw CSV cell (after `pd.read_csv`, before type coercion) is `Cell`,
  abstracted by what it parses as: empty, numeric text, date text, or
  other text;
* a dataframe is a list of named columns (`Frame`), where a column is
  either still raw cells or an already-coerced list of `Val`;
* fallible Python column access `df[name]` is modelled with `PyResult`
  (it raises `KeyError` when the column is absent), while `df.get(name)`
  is modelled with `Option` (it returns `None` instead of raising).

String literals from the source are reproduced except that the quote
characters inside the two user-facing messages are dropped.
-/

/-- A scalar of a coerced (numeric or datetime) pandas column: a number
or the missing marker NaN / NaT. -/
inductive Val where
  | na : Val
  | num : ℚ → Val
deriving DecidableEq

/-- Python float `>=` as used in `value >= avg`: NaN on either side
compares as `False` (it does not raise). -/
def Val.geB : Val → Val → Bool
  | Val.num a, Val.num b => decide (b ≤ a)
  | _, _ => false

/-- Python float `<=` as used in `df["CTR"].max() <= 1`: NaN on either
side compares as `False`. -/
def Val.leB : Val → Val → Bool
  | Val.num a, Val.num b => decide (a ≤ b)
  | _, _ => false

/-- Scalar multiplication `df["CTR"] * 100` on one cell: NaN stays NaN. -/
def Val.mul : Val → ℚ → Val
  | Val.na, _ => Val.na
  | Val.num q, c => Val.num (q * c)

/-- The non-missing numbers of a column, in order (what pandas skipna
reductions operate on). -/
def numsOf (xs : List Val) : List ℚ :=
  xs.filterMap (fun v => match v with | Val.na => none | Val.num q => some q)

/-- Series.max with skipna: NaN when no non-missing value exists. -/
def vmax (xs : List Val) : Val :=
  match numsOf xs with
  | [] => Val.na
  | q :: qs => Val.num (qs.foldl max q)

/-- Series.mean with skipna: arithmetic mean of the non-missing values,
NaN when there are none. -/
def mean (xs : List Val) : Val :=
  match numsOf xs with
  | [] => Val.na
  | q :: qs => Val.num ((q :: qs).sum / ((q :: qs).length : ℚ))

/-- The above-average flag string of the source. -/
def aboveStr : String := "✅ Above Avg"

/-- The below-average flag string of the source. -/
def belowStr : String := "❌ Below Avg"

/-- A Python scalar reaching `flag`: either a float (possibly NaN), for
which `>=` is total, or a non-float object, for which `value >= avg`
raises `TypeError`. After `pd.to_numeric(..., errors="coerce")` every
cell of the five benchmark columns is a float. -/
inductive PyNum where
  | float : Val → PyNum
  | obj : String → PyNum

/-- The source function `flag(value, avg)`: `value >= avg` selects the
flag; the `except` branch (reachable only when the comparison raises,
i.e. for non-float `value`) yields the empty string. -/
def flag : PyNum → Val → String
  | PyNum.float v, avg => if v.geB avg then aboveStr else belowStr
  | PyNum.obj _, _ => ""

/-- Python truthiness of a float: `bool(nan)` is `True`; only `0.0` is
falsy. -/
def pyTruthy : Val → Bool
  | Val.na => true
  | Val.num q => decide (q ≠ 0)

/-- The display fallback `(v or 0)` of the benchmark cards. -/
def pyOr0 (v : Val) : Val :=
  if pyTruthy v then v else Val.num 0

/-- Helper: a column consisting only of missing values has no numbers. -/
theorem numsOf_all_na (xs : List Val) (h : ∀ v ∈ xs, v = Val.na) :
    numsOf xs = [] := by
  induction xs with
  | nil => rfl
  | cons x rest ih =>
      have hx : x = Val.na := h x (List.mem_cons_self x rest)
      have hr : ∀ v ∈ rest, v = Val.na := fun v hv => h v (List.mem_cons_of_mem x hv)
      simp [numsOf, hx] at *
      simpa [numsOf] using ih hr

/-- C1 (amended): the per-row flag is "✅ Above Avg" exactly when the
non-missing value is at least the mean (ties count as above); a missing
per-row value does not raise, but its comparison evaluates to false, so
the row is flagged "❌ Below Avg" (the empty string arises only for
non-float inputs, which coerced columns never contain); on engagement
rates [1,2,3,4,5] the mean is 3 and the flags are below, below, above,
above, above. -/
theorem flag_above_iff_ge_mean :
    (∀ q m : ℚ, flag (PyNum.float (Val.num q)) (Val.num m)
        = if m ≤ q then aboveStr else belowStr)
    ∧ (∀ avg : Val, flag (PyNum.float Val.na) avg = belowStr)
    ∧ mean (List.map Val.num [1, 2, 3, 4, 5]) = Val.num 3
    ∧ List.map (fun q => flag (PyNum.float (Val.num q))
          (mean (List.map Val.num [1, 2, 3, 4, 5]))) [1, 2, 3, 4, 5]
        = [belowStr, belowStr, aboveStr, aboveStr, aboveStr] := by
  have h3 : mean (List.map Val.num [1, 2, 3, 4, 5]) = Val.num 3 := by
    simp [mean, numsOf]
    norm_num
  refine ⟨?_, ?_, h3, ?_⟩
  · intro q m
    by_cases h : m ≤ q <;> simp [flag, Val.geB, h]
  · intro avg
    cases avg <;> simp [flag, Val.geB, belowStr]
  · simp only [h3]
    decide

/-- C1 counterexample: a missing per-row value is flagged
"❌ Below Avg", not the empty unflagged state the claim asserts. -/
theorem flag_missing_is_below :
    flag (PyNum.float Val.na) (Val.num 3) = belowStr
    ∧ flag (PyNum.float Val.na) (Val.num 3) ≠ "" := by
  constructor
  · rfl
  · decide

/-- C6 (amended): when a benchmark column is entirely missing its mean
is NaN; the display fallback `or 0` does not replace NaN (NaN is truthy
in Python), so NaN reaches the rendering, and the NaN mean is
propagated into the flag computation, where every row compares false
and is flagged "❌ Below Avg" (no value is ever flagged above). -/
theorem mean_all_missing_propagates (xs : List Val)
    (h : ∀ v ∈ xs, v = Val.na) :
    mean xs = Val.na
    ∧ pyOr0 (mean xs) = Val.na
    ∧ (∀ v : Val, flag (PyNum.float v) (mean xs) = belowStr) := by
  have hm : mean xs = Val.na := by
    unfold mean
    rw [numsOf_all_na xs h]
  refine ⟨hm, ?_, ?_⟩
  · rw [hm]; rfl
  · intro v
    rw [hm]
    cases v <;> simp [flag, Val.geB, belowStr]

/-- C6 witness: the single-cell all-missing column. -/
theorem mean_all_missing_propagates_witness :
    mean [Val.na] = Val.na
    ∧ pyOr0 (mean [Val.na]) = Val.na
    ∧ (∀ v : Val, flag (PyNum.float v) (mean [Val.na]) = belowStr) :=
  mean_all_missing_propagates [Val.na] (by decide)

/-- C6 counterexample: the mean of an all-missing column is not
displayed as the numeric value 0; the `or 0` fallback leaves NaN in
place. -/
theorem mean_all_missing_not_zero :
    pyOr0 (mean [Val.na]) = Val.na ∧ pyOr0 (mean [Val.na]) ≠ Val.num 0 := by
  constructor
  · rfl
  · decide

/-- A row of the normalized posts dataframe, restricted to the fields
the filter engine and the boost merger read: the coerced creation
timestamp (NaT when unparseable or absent), the post title (None models
a NaN title cell), and the coerced engagement rate. -/
structure PostRow where
  createdDate : Val
  title : Option String
  er : Val
deriving DecidableEq

/-- The date-range filter of the source:
`filtered[(filtered["Created Date"] >= start) & (filtered["Created Date"] <= end)]`
with `start`, `end` the two chosen interval endpoints. A NaT creation
date compares false on both sides. -/
def dateFilter (rows : List PostRow) (start stop : ℚ) : List PostRow :=
  rows.filter (fun r => r.createdDate.geB (Val.num start) && r.createdDate.leB (Val.num stop))

/-- C4 (confirmed): every row of the date-filtered output has a
non-missing creation date inside the closed interval, and every row
with a missing creation date is excluded. -/
theorem dateFilter_closed_interval (rows : List PostRow) (s e : ℚ) (r : PostRow) :
    (r ∈ dateFilter rows s e → ∃ d : ℚ, r.createdDate = Val.num d ∧ s ≤ d ∧ d ≤ e)
    ∧ (r.createdDate = Val.na → r ∉ dateFilter rows s e) := by
  constructor
  · intro hr
    have hp := (List.mem_filter.mp hr).2
    have hand := Bool.and_eq_true_iff.mp hp
    cases hd : r.createdDate with
    | na => rw [hd] at hand; simp [Val.geB] at hand
    | num d =>
        refine ⟨d, rfl, ?_, ?_⟩
        · have := hand.1; rw [hd] at this; simpa [Val.geB] using this
        · have := hand.2; rw [hd] at this; simpa [Val.leB] using this
  · intro hna hr
    have hp := (List.mem_filter.mp hr).2
    rw [hna] at hp
    simp [Val.geB] at hp

/-- C4 witness: on a two-row table over the interval [0, 10], the row
dated 5 passes and yields its date inside the interval. -/
theorem dateFilter_closed_interval_witness :
    ∃ d : ℚ, (PostRow.mk (Val.num 5) (some "kept") (Val.num 1)).createdDate = Val.num d
      ∧ (0 : ℚ) ≤ d ∧ d ≤ 10 :=
  (dateFilter_closed_interval
      [PostRow.mk (Val.num 5) (some "kept") (Val.num 1),
       PostRow.mk Val.na (some "dropped") (Val.num 2)]
      0 10 (PostRow.mk (Val.num 5) (some "kept") (Val.num 1))).1
    (by decide)

/-- Boolean test that `small` is an initial segment of `big`. -/
def startsWith : List Char → List Char → Bool
  | [], _ => true
  | _ :: _, [] => false
  | a :: as, b :: bs => (a == b) && startsWith as bs

/-- Boolean test that `small` occurs contiguously inside `big`; this is
the matching semantics of the escaped-alternation regex search that
`str.contains(pattern, regex=True)` performs for one literal
alternative. -/
def containsSeq (big small : List Char) : Bool :=
  match big with
  | [] => small.isEmpty
  | c :: rest => startsWith small (c :: rest) || containsSeq rest small

/-- Lower-cased character data of a string; `case=False` matching is
modelled by lower-casing both sides. -/
def lowerData (s : String) : List Char :=
  s.data.map Char.toLower

/-- Pandas `astype(str)` on a title cell: a NaN cell renders as the
literal string "nan". -/
def titleStr : Option String → String
  | none => "nan"
  | some s => s

/-- Case-insensitive substring test: one alternative of the
`str.contains` pattern built from the escaped selected tags. -/
def containsCI (hay needle : String) : Bool :=
  containsSeq (lowerData hay) (lowerData needle)

/-- The hashtag filter of the source: when tags are selected, keep the
rows whose stringified title matches the case-insensitive alternation
of the regex-escaped tags. -/
def hashtagFilter (rows : List PostRow) (tags : List String) : List PostRow :=
  if tags.isEmpty then rows
  else rows.filter (fun r => tags.any (fun t => containsCI (titleStr r.title) t))

theorem startsWith_iff (small big : List Char) :
    startsWith small big = true ↔ ∃ post, small ++ post = big := by
  induction small generalizing big with
  | nil => simp [startsWith]
  | cons a as ih =>
      cases big with
      | nil =>
          simp [startsWith]
      | cons b bs =>
          rw [startsWith, Bool.and_eq_true_iff, beq_iff_eq, ih bs]
          constructor
          · rintro ⟨rfl, post, rfl⟩
            exact ⟨post, rfl⟩
          · rintro ⟨post, h⟩
            rw [List.cons_append] at h
            injection h with h1 h2
            exact ⟨h1, post, h2⟩

theorem containsSeq_iff (big small : List Char) :
    containsSeq big small = true ↔ ∃ pre post, pre ++ small ++ post = big := by
  induction big with
  | nil =>
      simp only [containsSeq, List.isEmpty_iff]
      constructor
      · rintro rfl; exact ⟨[], [], rfl⟩
      · rintro ⟨pre, post, h⟩
        rcases List.append_eq_nil.mp h with ⟨h1, -⟩
        exact (List.append_eq_nil.mp h1).2
  | cons c rest ih =>
      rw [containsSeq, Bool.or_eq_true, startsWith_iff, ih]
      constructor
      · rintro (⟨post, h⟩ | ⟨pre, post, h⟩)
        · exact ⟨[], post, by simpa using h⟩
        · exact ⟨c :: pre, post, by simp [h]⟩
      · rintro ⟨pre, post, h⟩
        cases pre with
        | nil => exact Or.inl ⟨post, by simpa using h⟩
        | cons p ps =>
            right
            rw [List.cons_append, List.cons_append] at h
            injection h with h1 h2
            exact ⟨ps, post, h2⟩

/-- C9 (confirmed): with a non-empty selection of hashtags (each a
token starting with the hash character), the filter retains exactly the
rows whose (present) title contains at least one selected tag as a
case-insensitive substring, the tags being combined by OR; rows with a
missing title are never retained since their stringified form "nan"
contains no hash character. -/
theorem hashtagFilter_exact (rows : List PostRow) (tags : List String) (r : PostRow)
    (hne : tags ≠ []) (hh : ∀ t ∈ tags, ∃ rest, t.data = '#' :: rest) :
    r ∈ hashtagFilter rows tags ↔
      r ∈ rows ∧ ∃ s, r.title = some s
        ∧ ∃ t ∈ tags, ∃ pre post, pre ++ lowerData t ++ post = lowerData s := by
  have hemp : tags.isEmpty = false := by
    cases tags with
    | nil => exact absurd rfl hne
    | cons a l => rfl
  rw [hashtagFilter, hemp]
  simp only [Bool.false_eq_true, if_false, List.mem_filter, List.any_eq_true]
  constructor
  · rintro ⟨hmem, t, ht, hc⟩
    refine ⟨hmem, ?_⟩
    cases hs : r.title with
    | none =>
        exfalso
        rw [hs] at hc
        rcases containsSeq_iff _ _ |>.mp hc with ⟨pre, post, heq⟩
        rcases hh t ht with ⟨rest, hrest⟩
        have hhash : '#' ∈ lowerData t := by
          rw [lowerData, hrest]
          exact List.mem_cons_self _ _
        have : '#' ∈ lowerData (titleStr none) := by
          rw [← heq]
          exact List.mem_append.mpr (Or.inl (List.mem_append.mpr (Or.inr hhash)))
        revert this
        decide
    | some s =>
        rw [hs] at hc
        rcases containsSeq_iff (lowerData s) (lowerData t) |>.mp hc with ⟨pre, post, heq⟩
        exact ⟨s, rfl, t, ht, pre, post, heq⟩
  · rintro ⟨hmem, s, hs, t, ht, pre, post, heq⟩
    refine ⟨hmem, t, ht, ?_⟩
    rw [hs]
    exact containsSeq_iff _ _ |>.mpr ⟨pre, post, heq⟩

/-- C9 witness: with the single selected tag "#dotc", the row titled
"Big #DOTC news" is retained (case-insensitively). -/
theorem hashtagFilter_exact_witness :
    PostRow.mk Val.na (some "Big #DOTC news") Val.na
      ∈ hashtagFilter [PostRow.mk Val.na (some "Big #DOTC news") Val.na,
                       PostRow.mk Val.na (some "plain title") Val.na] ["#dotc"] :=
  (hashtagFilter_exact
      [PostRow.mk Val.na (some "Big #DOTC news") Val.na,
       PostRow.mk Val.na (some "plain title") Val.na]
      ["#dotc"] (PostRow.mk Val.na (some "Big #DOTC news") Val.na)
      (by decide)
      (by
        intro t ht
        rw [List.mem_singleton] at ht
        subst ht
        exact ⟨['d', 'o', 't', 'c'], rfl⟩)).mpr
    ⟨List.mem_cons_self _ _, "Big #DOTC news", rfl, "#dotc", List.mem_singleton.mpr rfl,
      "big ".data, " news".data, by decide⟩

/-- A row of the boosted-configuration table built by the source
(columns Created Date, Post Title, Boosted). -/
structure BoostRow where
  createdDate : Val
  title : Option String
  boosted : Bool
deriving DecidableEq

/-- An uploaded boosted_config table restricted to its two used
columns: the join key Post Title and the saved Boosted value (None
models a missing cell in the saved file). -/
abbrev BoostConfig := List (Option String × Option Bool)

/-- All saved Boosted values whose Post Title equals the given title,
in file order: the rows a pandas left merge matches for one post. -/
def savedMatches (t : Option String) (c : BoostConfig) : List (Option Bool) :=
  (c.filter (fun e => decide (e.1 = t))).map (fun e => e.2)

/-- The Boosted_saved values one post row receives from the left
merge: one NaN value when no config row matches, otherwise one value
per matching config row. -/
def mergeSaved (t : Option String) (c : BoostConfig) : List (Option Bool) :=
  if (savedMatches t c).isEmpty then [none] else savedMatches t c

/-- The first saved value for a title, as `find?` would locate it. -/
def lookupSaved (t : Option String) (c : BoostConfig) : Option Bool :=
  (c.find? (fun e => decide (e.1 = t))).bind (fun e => e.2)

/-- The source block building `boosted_df`: start every post at
Boosted = False; when a config was uploaded, left-merge it on Post
Title and resolve with `Boosted_saved.combine_first(Boosted)`, i.e. the
saved value where non-missing and the False default otherwise. -/
def boosted_df (posts : List PostRow) (cfg : Option BoostConfig) : List BoostRow :=
  match cfg with
  | none => posts.map (fun p => BoostRow.mk p.createdDate p.title false)
  | some c =>
      (posts.map (fun p => BoostRow.mk p.createdDate p.title false)).flatMap
        (fun b => (mergeSaved b.title c).map
          (fun sv => BoostRow.mk b.createdDate b.title (sv.getD false)))

/-- The two-post table of the spec example. -/
def launchPosts : List PostRow :=
  [PostRow.mk (Val.num 1) (some "Launch Post") Val.na,
   PostRow.mk (Val.num 2) (some "Second Post") Val.na]

/-- The annotation table of the spec example: only "Launch Post" is
mapped, to true. -/
def launchCfg : BoostConfig := [(some "Launch Post", some true)]

/-- Every post defaults to Boosted = false when no config is present. -/
theorem boosted_default_false (posts : List PostRow) :
    ∀ r ∈ boosted_df posts none, r.boosted = false := by
  intro r hr
  rcases List.mem_map.mp hr with ⟨p, -, rfl⟩
  rfl


theorem filter_keys_nil (t : Option String) (c : BoostConfig)
    (h : ∀ e ∈ c, e.1 ≠ t) :
    List.filter (fun e => decide (e.1 = t)) c = [] := by
  induction c with
  | nil => rfl
  | cons e rest ih =>
      rw [List.filter_cons_of_neg]
      · exact ih (fun x hx => h x (List.mem_cons_of_mem e hx))
      · simpa using h e (List.mem_cons_self e rest)

/-- Under unique config titles, the merge produces exactly one
Boosted_saved value per post: the first (only) matching saved value. -/
theorem mergeSaved_nodup (t : Option String) (c : BoostConfig)
    (hn : (c.map (fun e => e.1)).Nodup) :
    mergeSaved t c = [lookupSaved t c] := by
  induction c with
  | nil => rfl
  | cons e rest ih =>
      rw [List.map_cons, List.nodup_cons] at hn
      by_cases he : e.1 = t
      · have hfilt : List.filter (fun e => decide (e.1 = t)) rest = [] := by
          apply filter_keys_nil
          intro x hx hxt
          exact hn.1 (List.mem_map.mpr ⟨x, hx, by rw [hxt, he]⟩)
        have hsm : savedMatches t (e :: rest) = [e.2] := by
          rw [savedMatches, List.filter_cons_of_pos (by simpa using he), hfilt]
          rfl
        have hlk : lookupSaved t (e :: rest) = e.2 := by
          rw [lookupSaved, List.find?_cons_of_pos _ (by simpa using he)]
          rfl
        rw [mergeSaved, hsm, hlk]
        rfl
      · have hps : savedMatches t (e :: rest) = savedMatches t rest := by
          rw [savedMatches, savedMatches, List.filter_cons_of_neg (by simpa using he)]
        have hpl : lookupSaved t (e :: rest) = lookupSaved t rest := by
          rw [lookupSaved, lookupSaved, List.find?_cons_of_neg _ (by simpa using he)]
        rw [mergeSaved, hps, hpl, ← mergeSaved]
        exact ih hn.2

/-- Under unique config titles, the merged table row-for-row carries
the first-non-missing-wins resolution of the saved value. -/
theorem boosted_df_closed (posts : List PostRow) (c : BoostConfig)
    (hn : (c.map (fun e => e.1)).Nodup) :
    boosted_df posts (some c)
      = posts.map (fun p =>
          BoostRow.mk p.createdDate p.title ((lookupSaved p.title c).getD false)) := by
  induction posts with
  | nil => rfl
  | cons p ps ih =>
      have hstep : boosted_df (p :: ps) (some c)
          = ((mergeSaved p.title c).map
              (fun sv => BoostRow.mk p.createdDate p.title (sv.getD false)))
            ++ boosted_df ps (some c) := rfl
      rw [hstep, ih, mergeSaved_nodup p.title c hn]
      rfl

/-- C5 (confirmed): every post defaults to Boosted = false; with a
supplied annotation table (unique titles) the left-join by title gives
each post the saved boolean when it is non-missing and false otherwise,
preserving one output row per post; on the spec example ("Launch Post"
mapped to true, nothing else annotated) the merged Boosted column is
[true, false]. -/
theorem boosted_merge_semantics (posts : List PostRow) (c : BoostConfig)
    (hn : (c.map (fun e => e.1)).Nodup) :
    (∀ r ∈ boosted_df posts none, r.boosted = false)
    ∧ (boosted_df posts (some c)).map (fun r => r.title) = posts.map (fun p => p.title)
    ∧ (∀ r ∈ boosted_df posts (some c), r.boosted = (lookupSaved r.title c).getD false)
    ∧ (boosted_df launchPosts (some launchCfg)).map (fun r => r.boosted) = [true, false] := by
  refine ⟨boosted_default_false posts, ?_, ?_, ?_⟩
  · rw [boosted_df_closed posts c hn, List.map_map]
    rfl
  · rw [boosted_df_closed posts c hn]
    intro r hr
    rcases List.mem_map.mp hr with ⟨p, -, rfl⟩
    rfl
  · rfl

/-- C5 witness: the spec example instantiates the unique-title
hypothesis and yields Boosted values [true, false]. -/
theorem boosted_merge_semantics_witness :
    (boosted_df launchPosts (some launchCfg)).map (fun r => r.boosted) = [true, false] :=
  (boosted_merge_semantics launchPosts launchCfg (by decide)).2.2.2

/-- Serialization of a Boosted cell by `df.to_csv`: Python booleans
print as "True" / "False". -/
def serializeBool : Bool → String
  | true => "True"
  | false => "False"

/-- Parsing of a Boosted cell by `pd.read_csv` on re-upload: the two
boolean words parse back to booleans; anything else is not a boolean. -/
def parseBool (s : String) : Option Bool :=
  if s = "True" then some true else if s = "False" then some false else none

/-- Serialization of a Post Title cell by `df.to_csv`: a missing title
is written as an empty field. -/
def serializeTitle : Option String → String
  | none => ""
  | some s => s

/-- Parsing of a Post Title cell by `pd.read_csv`: an empty field reads
back as NaN. -/
def parseTitle (s : String) : Option String :=
  if s = "" then none else some s

/-- The download button export of the edited boosted table, restricted
to the two columns the re-import consumes (the exported Created Date
column is ignored by the merge). -/
def exportConfig (rows : List BoostRow) : List (String × String) :=
  rows.map (fun r => (serializeTitle r.title, serializeBool r.boosted))

/-- Reading an uploaded boosted_config.csv back into the join table. -/
def importConfig (rows : List (String × String)) : BoostConfig :=
  rows.map (fun e => (parseTitle e.1, parseBool e.2))


/-- In a config with unique titles, looking up the title of any entry
finds exactly that entry. -/
theorem lookupSaved_getElem (c : BoostConfig)
    (hn : (c.map (fun e => e.1)).Nodup)
    (i : Nat) (hi : i < c.length) :
    lookupSaved (c.get ⟨i, hi⟩).1 c = (c.get ⟨i, hi⟩).2 := by
  induction c generalizing i with
  | nil => exact absurd hi (by simp)
  | cons e rest ih =>
      rw [List.map_cons, List.nodup_cons] at hn
      cases i with
      | zero =>
          show lookupSaved e.1 (e :: rest) = e.2
          rw [lookupSaved, List.find?_cons_of_pos _ (by simp)]
          rfl
      | succ j =>
          have hj : j < rest.length := by simpa using hi
          show lookupSaved (rest.get ⟨j, hj⟩).1 (e :: rest) = (rest.get ⟨j, hj⟩).2
          have hne : e.1 ≠ (rest.get ⟨j, hj⟩).1 := by
            intro hEq
            exact hn.1 (List.mem_map.mpr ⟨rest.get ⟨j, hj⟩, List.get_mem rest j hj, hEq.symm⟩)
          rw [lookupSaved, List.find?_cons_of_neg _ (by simpa using hne)]
          exact ih hn.2 j hj

/-- C7 (confirmed): exporting the edited boost table and re-importing
the exported file with zero edits, then merging it back onto the same
posts (whose titles are unique and not the empty string), reproduces
exactly the original (title, boosted) pairs. -/
theorem boost_roundtrip (posts : List PostRow) (edited : List BoostRow)
    (ht : edited.map (fun r => r.title) = posts.map (fun p => p.title))
    (hnodup : (posts.map (fun p => p.title)).Nodup)
    (hne : ∀ r ∈ edited, r.title ≠ some "") :
    (boosted_df posts (some (importConfig (exportConfig edited)))).map
        (fun r => (r.title, r.boosted))
      = edited.map (fun r => (r.title, r.boosted)) := by
  have himp : importConfig (exportConfig edited)
      = edited.map (fun r => (r.title, some r.boosted)) := by
    rw [exportConfig, importConfig, List.map_map]
    apply List.map_congr_left
    intro r hr
    have h1 : parseTitle (serializeTitle r.title) = r.title := by
      cases hx : r.title with
      | none => rfl
      | some s =>
          have hs : s ≠ "" := by
            intro hEmpty
            exact hne r hr (by rw [hx, hEmpty])
          simp [serializeTitle, parseTitle, hs]
    have h2 : parseBool (serializeBool r.boosted) = some r.boosted := by
      cases r.boosted <;> rfl
    simp only [Function.comp_apply, h1, h2]
  have hkeys : ((edited.map (fun r => (r.title, some r.boosted))).map (fun e => e.1))
      = posts.map (fun p => p.title) := by
    rw [List.map_map]
    exact ht
  have hcn : ((edited.map (fun r => (r.title, some r.boosted))).map (fun e => e.1)).Nodup := by
    rw [hkeys]
    exact hnodup
  rw [himp, boosted_df_closed posts _ hcn, List.map_map]
  have hlen : edited.length = posts.length := by
    simpa using congrArg List.length ht
  apply List.ext_getElem (by simpa using hlen.symm)
  intro i h1 h2
  have hip : i < posts.length := by simpa using h1
  have hie : i < edited.length := by simpa using h2
  have hteq : edited[i].title = posts[i].title := by
    have h := congrArg (fun l => l[i]?) ht
    simp only [List.getElem?_map] at h
    rw [List.getElem?_eq_getElem hie, List.getElem?_eq_getElem hip] at h
    simpa using h
  have hic : i < (edited.map (fun r => (r.title, some r.boosted))).length := by
    simpa using hie
  have hlook : lookupSaved posts[i].title (edited.map (fun r => (r.title, some r.boosted)))
      = some edited[i].boosted := by
    have hL := lookupSaved_getElem (edited.map (fun r => (r.title, some r.boosted))) hcn i hic
    have hci : (edited.map (fun r => (r.title, some r.boosted))).get ⟨i, hic⟩
        = (edited[i].title, some edited[i].boosted) := by
      simp
    rw [hci] at hL
    rw [← hteq]
    exact hL
  simp only [List.getElem_map, Function.comp_apply]
  rw [hlook, hteq]
  rfl

/-- C7 witness: a two-row edited table round-trips through export and
re-import onto the same posts unchanged. -/
theorem boost_roundtrip_witness :
    (boosted_df launchPosts (some (importConfig (exportConfig
        [BoostRow.mk (Val.num 1) (some "Launch Post") true,
         BoostRow.mk (Val.num 2) (some "Second Post") false])))).map
        (fun r => (r.title, r.boosted))
      = [BoostRow.mk (Val.num 1) (some "Launch Post") true,
         BoostRow.mk (Val.num 2) (some "Second Post") false].map
          (fun r => (r.title, r.boosted)) :=
  boost_roundtrip launchPosts
    [BoostRow.mk (Val.num 1) (some "Launch Post") true,
     BoostRow.mk (Val.num 2) (some "Second Post") false]
    rfl (by decide) (by decide)

/-- The error message shown for a malformed boosted_config upload
(source text, quote characters dropped). -/
def errMsg : String :=
  "⚠️ boosted_config.csv must have Post Title and Boosted columns."

/-- The upload validation of the source: when the Post Title column or
the Boosted column is missing from the uploaded file, an error is shown
and the config is reset to None, so the pipeline continues as if no
file had been uploaded. -/
def validate_boosted_config (cols : List String) (c : BoostConfig) :
    List String × Option BoostConfig :=
  if "Post Title" ∉ cols ∨ "Boosted" ∉ cols then ([errMsg], none)
  else ([], some c)

/-- C8 (confirmed): an annotation upload lacking both the title column
and the boolean column is rejected with the visible error message and
the config becomes None; the pipeline then proceeds exactly as with no
annotation file, every post defaulting to Boosted = false. -/
theorem config_missing_columns_rejected (cols : List String) (c : BoostConfig)
    (posts : List PostRow)
    (h1 : "Post Title" ∉ cols) (h2 : "Boosted" ∉ cols) :
    validate_boosted_config cols c = ([errMsg], none)
    ∧ ∀ r ∈ boosted_df posts none, r.boosted = false := by
  refine ⟨?_, boosted_default_false posts⟩
  rw [validate_boosted_config, if_pos (Or.inl h1)]

/-- C8 witness: a table with columns Foo and Bar is rejected and the
posts keep the false default. -/
theorem config_missing_columns_rejected_witness :
    validate_boosted_config ["Foo", "Bar"] [(some "Launch Post", some true)]
      = ([errMsg], none)
    ∧ ∀ r ∈ boosted_df launchPosts none, r.boosted = false :=
  config_missing_columns_rejected ["Foo", "Bar"] [(some "Launch Post", some true)]
    launchPosts (by decide) (by decide)

/-- A raw CSV cell after `pd.read_csv(file, skiprows=1)`, before any
type coercion, abstracted by what its text parses as: an empty field,
text parseable as a number, text parseable as a date (carrying its
timestamp), or other text. -/
inductive Cell where
  | empty : Cell
  | numStr : ℚ → Cell
  | dateStr : ℚ → Cell
  | text : String → Cell
deriving DecidableEq

/-- `pd.to_numeric(-, errors="coerce")` on one cell: numbers parse,
everything else becomes NaN. -/
def toNumericCell : Cell → Val
  | Cell.numStr q => Val.num q
  | _ => Val.na

/-- `pd.to_datetime(-, errors="coerce")` on one cell: date text parses
to its timestamp, everything else becomes NaT. -/
def toDatetimeCell : Cell → Val
  | Cell.dateStr d => Val.num d
  | _ => Val.na

/-- An as-read table: named columns of raw cells. -/
abbrev RawTable := List (String × List Cell)

/-- A column of a partially processed dataframe: still raw, or already
coerced to typed values. -/
inductive Column where
  | raw : List Cell → Column
  | vals : List Val → Column
deriving DecidableEq

/-- A dataframe mid-normalization: named columns in order. -/
abbrev Frame := List (String × Column)

/-- Column lookup by name (first match), as `df[name]` and
`df.get(name)` locate a column. -/
def getCol (t : Frame) (n : String) : Option Column :=
  match t with
  | [] => none
  | c :: rest => if c.1 = n then some c.2 else getCol rest n

/-- The membership test `name in df.columns`. -/
def hasCol (t : Frame) (n : String) : Bool :=
  (getCol t n).isSome

/-- Column assignment `df[name] = col`: replaces the column in place
when it exists, appends it at the end otherwise. -/
def setCol (t : Frame) (n : String) (col : Column) : Frame :=
  if hasCol t n then t.map (fun c => if c.1 = n then (n, col) else c)
  else t ++ [(n, col)]

theorem getCol_map_replace (t : Frame) (n : String) (col : Column)
    (h : hasCol t n = true) :
    getCol (t.map (fun c => if c.1 = n then (n, col) else c)) n = some col := by
  induction t with
  | nil => simp [hasCol, getCol] at h
  | cons c rest ih =>
      by_cases hc : c.1 = n
      · simp [getCol, hc]
      · have h2 : hasCol rest n = true := by
          rw [hasCol, getCol, if_neg hc] at h
          exact h
        simp only [List.map_cons, if_neg hc, getCol, hc, if_false]
        exact ih h2

theorem getCol_append_absent (t : Frame) (n : String) (col : Column)
    (h : hasCol t n = false) :
    getCol (t ++ [(n, col)]) n = some col := by
  induction t with
  | nil => simp [getCol]
  | cons c rest ih =>
      by_cases hc : c.1 = n
      · rw [hasCol, getCol, if_pos hc] at h
        simp at h
      · rw [List.cons_append, getCol, if_neg hc]
        apply ih
        rw [hasCol, getCol, if_neg hc] at h
        exact h

theorem getCol_setCol_self (t : Frame) (n : String) (col : Column) :
    getCol (setCol t n col) n = some col := by
  cases hB : hasCol t n with
  | true =>
      rw [setCol, if_pos hB]
      exact getCol_map_replace t n col hB
  | false =>
      rw [setCol, if_neg (by simp [hB])]
      exact getCol_append_absent t n col hB

theorem getCol_map_replace_ne (t : Frame) (n m : String) (col : Column)
    (hnm : n ≠ m) :
    getCol (t.map (fun c => if c.1 = n then (n, col) else c)) m = getCol t m := by
  induction t with
  | nil => rfl
  | cons c rest ih =>
      by_cases hc : c.1 = n
      · have hcm : ¬(c.1 = m) := by rw [hc]; exact hnm
        simp only [List.map_cons, if_pos hc, getCol, if_neg hnm, if_neg hcm]
        exact ih
      · by_cases hcm : c.1 = m
        · simp only [List.map_cons, if_neg hc, getCol, if_pos hcm]
        · simp only [List.map_cons, if_neg hc, getCol, if_neg hcm]
          exact ih

theorem getCol_append_ne (t : Frame) (n m : String) (col : Column)
    (hnm : n ≠ m) :
    getCol (t ++ [(n, col)]) m = getCol t m := by
  induction t with
  | nil => simp [getCol, hnm]
  | cons c rest ih =>
      by_cases hcm : c.1 = m
      · simp [getCol, hcm]
      · simp only [List.cons_append, getCol, if_neg hcm]
        exact ih

theorem getCol_setCol_ne (t : Frame) (n m : String) (col : Column)
    (hnm : n ≠ m) :
    getCol (setCol t n col) m = getCol t m := by
  cases hB : hasCol t n with
  | true =>
      rw [setCol, if_pos hB]
      exact getCol_map_replace_ne t n m col hnm
  | false =>
      rw [setCol, if_neg (by simp [hB])]
      exact getCol_append_ne t n m col hnm

/-- One iteration of the numeric-coercion loop of `read_posts_csv`:
`if c in df.columns: df[c] = pd.to_numeric(df[c], errors="coerce")`.
Re-coercing an already coerced column is the identity. -/
def coerceNumeric (t : Frame) (n : String) : Frame :=
  match getCol t n with
  | some (Column.raw cells) => setCol t n (Column.vals (cells.map toNumericCell))
  | some (Column.vals xs) => setCol t n (Column.vals xs)
  | none => t

theorem getCol_coerceNumeric_ne (t : Frame) (n m : String) (hnm : n ≠ m) :
    getCol (coerceNumeric t n) m = getCol t m := by
  cases hg : getCol t n with
  | none => simp [coerceNumeric, hg]
  | some col =>
      cases col with
      | raw cells =>
          simp only [coerceNumeric, hg]
          exact getCol_setCol_ne t n m _ hnm
      | vals xs =>
          simp only [coerceNumeric, hg]
          exact getCol_setCol_ne t n m _ hnm

theorem getCol_coerceNumeric_vals (t : Frame) (n m : String) (xs : List Val)
    (h : getCol t n = some (Column.vals xs)) :
    getCol (coerceNumeric t m) n = some (Column.vals xs) := by
  by_cases hnm : m = n
  · subst hnm
    simp only [coerceNumeric, h]
    exact getCol_setCol_self t m _
  · rw [getCol_coerceNumeric_ne t m n hnm]
    exact h

theorem getCol_foldl_coerce_vals (ns : List String) (t : Frame) (n : String)
    (xs : List Val) (h : getCol t n = some (Column.vals xs)) :
    getCol (ns.foldl coerceNumeric t) n = some (Column.vals xs) := by
  induction ns generalizing t with
  | nil => exact h
  | cons m ms ih => exact ih _ (getCol_coerceNumeric_vals t n m xs h)

theorem getCol_foldl_coerce_raw (ns : List String) (t : Frame) (n : String)
    (cells : List Cell) (hmem : n ∈ ns)
    (h : getCol t n = some (Column.raw cells)) :
    getCol (ns.foldl coerceNumeric t) n
      = some (Column.vals (cells.map toNumericCell)) := by
  induction ns generalizing t with
  | nil => cases hmem
  | cons m ms ih =>
      by_cases hnm : m = n
      · subst hnm
        have h1 : getCol (coerceNumeric t m) m
            = some (Column.vals (cells.map toNumericCell)) := by
          simp only [coerceNumeric, h]
          exact getCol_setCol_self t m _
        exact getCol_foldl_coerce_vals ms _ m _ h1
      · rcases List.mem_cons.mp hmem with hEq | hmem2
        · exact absurd hEq.symm hnm
        · have h1 : getCol (coerceNumeric t m) n = some (Column.raw cells) := by
            rw [getCol_coerceNumeric_ne t m n hnm]
            exact h
          exact ih _ hmem2 h1

/-- The fixed column-rename lookup POSTS_RENAMES as a total function:
a matching source header maps to its canonical name, anything else
passes through (the six identity entries of the dict are no-ops). -/
def renameCol (s : String) : String :=
  if s = "Post title" then "Post Title"
  else if s = "Post link" then "Post Link"
  else if s = "Post type" then "Post Type"
  else if s = "Created date" then "Created Date"
  else if s = "Click through rate (CTR)" then "CTR"
  else if s = "Engagement rate" then "Engagement Rate"
  else s

/-- `df = df.rename(columns=POSTS_RENAMES)` applied to the as-read
table: every column is still raw afterwards. -/
def renameStage (t : RawTable) : Frame :=
  t.map (fun c => (renameCol c.1, Column.raw c.2))

/-- The number of rows of the as-read table (the length a broadcast
scalar assignment fills). -/
def rowCount (t : RawTable) : Nat :=
  match t with
  | [] => 0
  | c :: _ => c.2.length

/-- `df["Created Date"] = pd.to_datetime(df.get("Created Date"), errors="coerce")`:
`df.get` returns the column when present and None otherwise; coercing
None yields the scalar NaT, which the assignment broadcasts to every
row, so the column always exists afterwards and no error is raised. -/
def createdStage (t1 : Frame) (nrows : Nat) : Frame :=
  setCol t1 "Created Date"
    (Column.vals
      (match getCol t1 "Created Date" with
       | some (Column.raw cells) => cells.map toDatetimeCell
       | some (Column.vals xs) => xs
       | none => List.replicate nrows Val.na))

/-- The eight column names of the numeric-coercion loop. -/
def numericColNames : List String :=
  ["Impressions", "Clicks", "CTR", "Likes", "Comments", "Reposts", "Follows",
   "Engagement Rate"]

/-- The rescale heuristic
`if "CTR" in df.columns and df["CTR"].max() <= 1: df["CTR"] = df["CTR"] * 100`:
after the coercion loop a present CTR column is always coerced, so the
guard is the typed-column match plus the max comparison. -/
def ctrStage (t : Frame) : Frame :=
  match getCol t "CTR" with
  | some (Column.vals xs) =>
      if (vmax xs).leB (Val.num 1)
      then setCol t "CTR" (Column.vals (xs.map (fun v => v.mul 100)))
      else t
  | _ => t

/-- The posts normalizer `read_posts_csv` after `pd.read_csv(file, skiprows=1)`:
rename, datetime-coerce the creation date, numeric-coerce the eight
metric columns that exist, then apply the CTR rescale heuristic. -/
def read_posts_csv (t : RawTable) : Frame :=
  ctrStage (numericColNames.foldl coerceNumeric (createdStage (renameStage t) (rowCount t)))

theorem getCol_ctrStage_ne (t : Frame) (m : String) (hm : m ≠ "CTR") :
    getCol (ctrStage t) m = getCol t m := by
  cases hg : getCol t "CTR" with
  | none => simp [ctrStage, hg]
  | some col =>
      cases col with
      | raw cells => simp [ctrStage, hg]
      | vals xs =>
          simp only [ctrStage, hg]
          by_cases hle : (vmax xs).leB (Val.num 1) = true
          · rw [if_pos hle]
            exact getCol_setCol_ne t "CTR" m _ (fun hEq => hm hEq.symm)
          · rw [if_neg hle]

theorem getCol_ctrStage_self (t : Frame) (xs : List Val)
    (h : getCol t "CTR" = some (Column.vals xs)) :
    getCol (ctrStage t) "CTR"
      = some (Column.vals
          (if (vmax xs).leB (Val.num 1) then xs.map (fun v => v.mul 100) else xs)) := by
  simp only [ctrStage, h]
  by_cases hle : (vmax xs).leB (Val.num 1) = true
  · rw [if_pos hle, if_pos hle]
    exact getCol_setCol_self t "CTR" _
  · rw [if_neg hle, if_neg hle]
    exact h

/-- The CTR column of the fully normalized posts table, in terms of the
raw cells the renamed table carried. -/
theorem read_posts_ctr_eq (t : RawTable) (cells : List Cell)
    (h : getCol (renameStage t) "CTR" = some (Column.raw cells)) :
    getCol (read_posts_csv t) "CTR"
      = some (Column.vals
          (if (vmax (cells.map toNumericCell)).leB (Val.num 1)
           then (cells.map toNumericCell).map (fun v => v.mul 100)
           else cells.map toNumericCell)) := by
  have h1 : getCol (createdStage (renameStage t) (rowCount t)) "CTR"
      = some (Column.raw cells) := by
    rw [createdStage, getCol_setCol_ne _ _ _ _ (by decide)]
    exact h
  have h2 := getCol_foldl_coerce_raw numericColNames _ "CTR" cells (by decide) h1
  simp only [read_posts_csv]
  exact getCol_ctrStage_self _ _ h2

/-- Column lookup on the as-read table. -/
def getColRaw (t : RawTable) (n : String) : Option (List Cell) :=
  match t with
  | [] => none
  | c :: rest => if c.1 = n then some c.2 else getColRaw rest n

/-- The result of a Python expression that may raise: either a value or
an uncaught KeyError naming the missing key. -/
inductive PyResult (α : Type) where
  | ok : α → PyResult α
  | keyError : String → PyResult α
deriving DecidableEq

/-- The warning text of the source (quote characters dropped). -/
def metricsWarning : String := "Could not find Date column in Metrics file."

/-- `pd.to_numeric(df[c], errors="coerce")` on a whole column. -/
def coerceColumn : Column → Column
  | Column.raw cells => Column.vals (cells.map toNumericCell)
  | Column.vals xs => Column.vals xs

/-- The metrics normalizer `read_metrics_csv` after
`pd.read_csv(file, skiprows=1)`: it warns when no Date column exists,
then unconditionally evaluates `df["Date"]`, which raises KeyError for
the missing column; otherwise it datetime-coerces Date and
numeric-coerces every other column. The first component collects the
emitted warnings. -/
def read_metrics_csv (t : RawTable) : List String × PyResult Frame :=
  let warns : List String :=
    if (getColRaw t "Date").isSome then [] else [metricsWarning]
  match getColRaw t "Date" with
  | none => (warns, PyResult.keyError "Date")
  | some dcells =>
      let t1 : Frame :=
        setCol (t.map (fun c => (c.1, Column.raw c.2))) "Date"
          (Column.vals (dcells.map toDatetimeCell))
      (warns, PyResult.ok
        (t1.map (fun c => if c.1 = "Date" then c else (c.1, coerceColumn c.2))))

/-- C2 (code_bug): on a metrics table without a Date column the
normalizer emits the non-fatal warning but then raises KeyError at the
`df["Date"]` access instead of returning a degraded table, contradicting
the documented non-fatal contract. -/
theorem metrics_missing_date_keyerror (t : RawTable)
    (h : getColRaw t "Date" = none) :
    read_metrics_csv t = ([metricsWarning], PyResult.keyError "Date") := by
  simp [read_metrics_csv, h]

/-- A metrics file whose header lacks Date. -/
def metricsBad : RawTable := [("Day", [Cell.text "Mon"]), ("Clicks (total)", [Cell.numStr 5])]

/-- C2 witness: the concrete failing input evaluates to the warning
plus the KeyError. -/
theorem metrics_missing_date_keyerror_witness :
    read_metrics_csv metricsBad = ([metricsWarning], PyResult.keyError "Date") :=
  metrics_missing_date_keyerror metricsBad (by decide)

/-- C10 (confirmed): when no header of the posts file renames to
Created Date, the normalizer neither raises nor warns (it uses the
total `df.get`), and the returned table still contains a Created Date
column in which every value is the missing marker. -/
theorem posts_missing_created_date (t : RawTable)
    (h : getCol (renameStage t) "Created Date" = none) :
    getCol (read_posts_csv t) "Created Date"
      = some (Column.vals (List.replicate (rowCount t) Val.na))
    ∧ ∀ v ∈ List.replicate (rowCount t) Val.na, v = Val.na := by
  constructor
  · have h1 : getCol (createdStage (renameStage t) (rowCount t)) "Created Date"
        = some (Column.vals (List.replicate (rowCount t) Val.na)) := by
      rw [createdStage, h, getCol_setCol_self]
    have h2 := getCol_foldl_coerce_vals numericColNames _ "Created Date" _ h1
    simp only [read_posts_csv]
    rw [getCol_ctrStage_ne _ _ (by decide)]
    exact h2
  · intro v hv
    exact List.eq_of_mem_replicate hv

/-- A posts file with no creation-date header. -/
def postsNoDate : RawTable := [("Impressions", [Cell.numStr 10, Cell.empty])]

/-- C10 witness: the two-row dateless table yields a Created Date
column of two missing values. -/
theorem posts_missing_created_date_witness :
    getCol (read_posts_csv postsNoDate) "Created Date"
      = some (Column.vals (List.replicate (rowCount postsNoDate) Val.na))
    ∧ ∀ v ∈ List.replicate (rowCount postsNoDate) Val.na, v = Val.na :=
  posts_missing_created_date postsNoDate (by decide)

theorem le_foldl_max (l : List ℚ) (a : ℚ) : a ≤ l.foldl max a := by
  induction l generalizing a with
  | nil => exact le_refl a
  | cons b t ih => exact le_trans (le_max_left a b) (ih (max a b))

theorem mem_le_foldl_max (l : List ℚ) (a : ℚ) : ∀ x ∈ l, x ≤ l.foldl max a := by
  induction l generalizing a with
  | nil => intro x hx; cases hx
  | cons b t ih =>
      intro x hx
      rcases List.mem_cons.mp hx with rfl | hx2
      · exact le_trans (le_max_right a x) (le_foldl_max t (max a x))
      · exact ih (max a b) x hx2

/-- When the skipna maximum of a column compares ≤ 1 (so it is not
NaN), every non-missing value of the column is ≤ 1. -/
theorem vmax_bound (xs : List Val) (hle : (vmax xs).leB (Val.num 1) = true) :
    ∀ q ∈ numsOf xs, q ≤ 1 := by
  intro q hq
  cases hns : numsOf xs with
  | nil => rw [hns] at hq; cases hq
  | cons a l =>
      have hv : vmax xs = Val.num (l.foldl max a) := by
        unfold vmax
        rw [hns]
      rw [hv] at hle
      have hM : l.foldl max a ≤ 1 := by simpa [Val.leB] using hle
      rw [hns] at hq
      rcases List.mem_cons.mp hq with rfl | hq2
      · exact le_trans (le_foldl_max l q) hM
      · exact le_trans (mem_le_foldl_max l a q hq2) hM

theorem numsOf_map_mul (xs : List Val) (c : ℚ) :
    numsOf (xs.map (fun v => v.mul c)) = (numsOf xs).map (fun q => q * c) := by
  induction xs with
  | nil => rfl
  | cons x rest ih =>
      cases x with
      | na =>
          simp only [List.map_cons, numsOf, List.filterMap_cons] at ih ⊢
          simpa [Val.mul] using ih
      | num q =>
          simp only [List.map_cons, numsOf, List.filterMap_cons] at ih ⊢
          simpa [Val.mul] using ih

/-- C3 (amended): the posts normalizer applies the rescale to the CTR
column exactly when the pre-scale skipna maximum is ≤ 1, multiplying
every value by 100 once, globally; and provided every non-missing input
CTR value already lies in [0, 100], every non-missing value after
normalization lies in [0, 100]. -/
theorem ctr_rescale_semantics (t : RawTable) (cells : List Cell)
    (h : getCol (renameStage t) "CTR" = some (Column.raw cells)) :
    getCol (read_posts_csv t) "CTR"
      = some (Column.vals
          (if (vmax (cells.map toNumericCell)).leB (Val.num 1)
           then (cells.map toNumericCell).map (fun v => v.mul 100)
           else cells.map toNumericCell))
    ∧ ((∀ q ∈ numsOf (cells.map toNumericCell), 0 ≤ q ∧ q ≤ 100) →
        ∀ q ∈ numsOf
            (if (vmax (cells.map toNumericCell)).leB (Val.num 1)
             then (cells.map toNumericCell).map (fun v => v.mul 100)
             else cells.map toNumericCell),
          0 ≤ q ∧ q ≤ 100) := by
  refine ⟨read_posts_ctr_eq t cells h, ?_⟩
  intro hin q hq
  by_cases hle : (vmax (cells.map toNumericCell)).leB (Val.num 1) = true
  · rw [if_pos hle, numsOf_map_mul] at hq
    rcases List.mem_map.mp hq with ⟨q0, hq0, rfl⟩
    have h01 := hin q0 hq0
    have hle1 : q0 ≤ 1 := vmax_bound _ hle q0 hq0
    constructor
    · exact mul_nonneg h01.1 (by norm_num)
    · nlinarith [h01.1]
  · rw [if_neg hle] at hq
    exact hin q hq

/-- A posts table whose single CTR value 200 is outside the claimed
range. -/
def ctrOutOfRange : RawTable := [("Click through rate (CTR)", [Cell.numStr 200])]

/-- An already-percentage posts table whose values all happen to be
≤ 1, so the heuristic rescales it again. -/
def ctrTiny : RawTable := [("Click through rate (CTR)", [Cell.numStr (1/2)])]

/-- C3 counterexample: the [0, 100] post-condition fails on input 200
(the value passes through unchanged, outside [0, 100]); and re-running
the load-time normalization on an already-normalized column whose
maximum is ≤ 1 double-scales it: the percentage 0.5 becomes 50. -/
theorem ctr_postcondition_fails :
    getCol (read_posts_csv ctrOutOfRange) "CTR" = some (Column.vals [Val.num 200])
    ∧ ¬((200 : ℚ) ≤ 100)
    ∧ getCol (read_posts_csv ctrTiny) "CTR" = some (Column.vals [Val.num 50])
    ∧ Val.num 50 ≠ Val.num (1/2) := by
  refine ⟨?_, by norm_num, ?_, ?_⟩
  · have hc := read_posts_ctr_eq ctrOutOfRange [Cell.numStr 200] rfl
    rw [hc]
    have : (vmax ([Cell.numStr 200].map toNumericCell)).leB (Val.num 1) = false := by
      simp [vmax, numsOf, toNumericCell, Val.leB]
    rw [this]
    rfl
  · have hc := read_posts_ctr_eq ctrTiny [Cell.numStr (1/2)] rfl
    rw [hc]
    have : (vmax ([Cell.numStr (1/2)].map toNumericCell)).leB (Val.num 1) = true := by
      simp [vmax, numsOf, toNumericCell, Val.leB]
      norm_num
    rw [this]
    simp only [List.map_cons, List.map_nil, toNumericCell, Val.mul]
    norm_num
  · simp only [ne_eq, Val.num.injEq]
    norm_num

/-- C3 witness: a table whose CTR cells are 5 and an empty field keeps
both values (max 5 > 1, no rescale), and the range implication holds. -/
theorem ctr_rescale_semantics_witness :
    getCol (read_posts_csv [("Click through rate (CTR)", [Cell.numStr 5, Cell.empty])]) "CTR"
      = some (Column.vals
          (if (vmax ([Cell.numStr 5, Cell.empty].map toNumericCell)).leB (Val.num 1)
           then ([Cell.numStr 5, Cell.empty].map toNumericCell).map (fun v => v.mul 100)
           else [Cell.numStr 5, Cell.empty].map toNumericCell)) :=
  (ctr_rescale_semantics [("Click through rate (CTR)", [Cell.numStr 5, Cell.empty])]
    [Cell.numStr 5, Cell.empty] rfl).1
